import Mathlib

/-!
Verification of the core components of the `ska_helpers` repository:

* `LRUDict` (`ska_helpers/utils.py`): a dict with fixed capacity that evicts
  the least-recently-used item when full.  It inherits from
  `collections.OrderedDict`; we embed the ordered dict as an association list
  `List (K × V)` ordered from least-recently-touched (front) to
  most-recently-touched (back), which is exactly the iteration order of the
  Python `OrderedDict` as used by the class (`next(iter(self))` is the front,
  `move_to_end` moves an entry to the back).

* the retry machinery (`ska_helpers/retry/api.py`): `__retry_internal`,
  `retry_call` and the `_mangle_alert_words` helper.  The loop is embedded as
  a fuel-indexed recursive function over an explicit state (remaining tries,
  current delay, failure history, number of calls made, cumulative sleep
  time, emitted log messages); delays are rational numbers.
-/

namespace SkaHelpers

/-! ## Association-list primitives used to embed `collections.OrderedDict` -/

/-- Models `OrderedDict.__getitem__` as a pure lookup: the value stored for key `k`,
if present.  Keys are unique in a dict, so the first match is the match. -/
def lookupKey {K V : Type} [DecidableEq K] (k : K) : List (K × V) → Option V
  | [] => none
  | p :: rest => if p.1 = k then some p.2 else lookupKey k rest

/-- Models `del self[k]` on an ordered dict: removes the (unique) entry whose key is
`k`; modelled as removing the first entry with that key. -/
def removeKey {K V : Type} [DecidableEq K] (k : K) : List (K × V) → List (K × V)
  | [] => []
  | p :: rest => if p.1 = k then rest else p :: removeKey k rest

/-- Models `OrderedDict.move_to_end(k)`: move the entry for `k` (with its current
value) to the most-recently-used end.  Only invoked when `k` is present. -/
def moveToEnd {K V : Type} [DecidableEq K] (k : K) (es : List (K × V)) : List (K × V) :=
  match lookupKey k es with
  | none => es
  | some v => removeKey k es ++ [(k, v)]

/-- Models `OrderedDict.__setitem__(k, v)` (the `super().__setitem__` call): replace
the value in place if the key is present, otherwise append the new entry at
the most-recently-used end. -/
def odSetItem {K V : Type} [DecidableEq K] (k : K) (v : V) : List (K × V) → List (K × V)
  | [] => [(k, v)]
  | p :: rest => if p.1 = k then (k, v) :: rest else p :: odSetItem k v rest

/-! ## `LRUDict` -/

/-- Models `LRUDict` from `ska_helpers/utils.py`: an ordered dict plus a fixed
capacity set at construction. -/
structure LRUDict (K V : Type) where
  capacity : Nat
  entries : List (K × V)
deriving DecidableEq

namespace LRUDict

/-- Models `LRUDict.__init__(capacity)`: empty dict with the given capacity. -/
def empty (K V : Type) (capacity : Nat) : LRUDict K V := ⟨capacity, []⟩

/-- Models `key in self`: inherited `dict.__contains__`, a pure membership test that
does not touch the recency order. -/
def containsKey {K V : Type} [DecidableEq K] (d : LRUDict K V) (k : K) : Bool :=
  (lookupKey k d.entries).isSome

/-- Models `LRUDict.__getitem__`: `value = super().__getitem__(key)` (raises
`KeyError`, i.e. `none`, if absent — in that case `move_to_end` is never
reached), then `self.move_to_end(key)`, then return the value together with
the updated dict. -/
def getItem {K V : Type} [DecidableEq K] (d : LRUDict K V) (k : K) :
    Option (V × LRUDict K V) :=
  match lookupKey k d.entries with
  | none => none
  | some v => some (v, ⟨d.capacity, moveToEnd k d.entries⟩)

/-- Models `LRUDict.__setitem__`: `if key in self: self.move_to_end(key)`, then
`super().__setitem__(key, value)`, then if `len(self) > self.capacity`,
`oldest = next(iter(self)); del self[oldest]`. -/
def setItem {K V : Type} [DecidableEq K] (d : LRUDict K V) (k : K) (v : V) :
    LRUDict K V :=
  let es1 := if (lookupKey k d.entries).isSome then moveToEnd k d.entries else d.entries
  let es2 := odSetItem k v es1
  let es3 :=
    if d.capacity < es2.length then
      match es2.head? with
      | none => es2
      | some oldest => removeKey oldest.1 es2
    else es2
  ⟨d.capacity, es3⟩

end LRUDict

/-- One cache operation, for reasoning about arbitrary operation sequences. -/
inductive CacheOp (K V : Type) where
  | set (k : K) (v : V)
  | get (k : K)
  | mem (k : K)
deriving DecidableEq

/-- The cache state after one operation.  A `get` of an absent key raises
`KeyError` before any mutation, so the state is unchanged; `mem` (the `in`
operator) is pure. -/
def applyOp {K V : Type} [DecidableEq K] (d : LRUDict K V) : CacheOp K V → LRUDict K V
  | .set k v => d.setItem k v
  | .get k =>
      match d.getItem k with
      | none => d
      | some r => r.2
  | .mem _ => d

/-- The cache state after a sequence of operations. -/
def applyOps {K V : Type} [DecidableEq K] (d : LRUDict K V) (ops : List (CacheOp K V)) :
    LRUDict K V :=
  ops.foldl applyOp d

/-- Well-formedness of a cache state: entry count within capacity and keys
pairwise distinct (automatic for a Python dict). -/
def WF {K V : Type} (d : LRUDict K V) : Prop :=
  d.entries.length ≤ d.capacity ∧ (d.entries.map Prod.fst).Nodup

/-! ## Alert-word mangling (`_mangle_alert_words` in `ska_helpers/retry/api.py`)

The Python helper runs five case-insensitive `re.sub` substitutions in order,
each keeping the matched text except for one interior character that is
replaced by a digit look-alike (`\g<1>{sub}\3` keeps groups 1 and 3 of the
match as they appeared, so the case of the surrounding letters survives).
`re.sub` scans left to right over non-overlapping matches and resumes after
each match; `ciStartsWith`/`subWordCI` reproduce exactly that scan for one
fixed pattern word, and `mangleAlertWords` chains the five substitutions in
the source order. -/

/-- Tests whether `s` starts with the (lowercase) pattern `word`,
case-insensitively; this is the per-position match test of `re.sub` with
`re.IGNORECASE`. -/
def ciStartsWith (word s : List Char) : Bool :=
  decide (word.length ≤ s.length) && decide ((s.take word.length).map Char.toLower = word)

/-- One case-insensitive `re.sub(pattern, repl, s)` pass for a single word
pattern whose replacement keeps the matched characters except the one at
index `mid`, which becomes the literal character `rep`.  The scan is written
with structural recursion on a fuel argument so that it is kernel-reducible;
every step consumes at least one character (the pattern words are nonempty),
so fuel equal to the length of the string always suffices. -/
def subWordCIFuel (word : List Char) (mid : Nat) (rep : Char) :
    Nat → List Char → List Char
  | 0, s => s
  | _ + 1, [] => []
  | fuel + 1, c :: rest =>
    if ciStartsWith word (c :: rest) then
      ((c :: rest).take word.length).set mid rep
        ++ subWordCIFuel word mid rep fuel ((c :: rest).drop word.length)
    else
      c :: subWordCIFuel word mid rep fuel rest

/-- The left-to-right non-overlapping substitution scan of `re.sub` for one
word pattern, at full fuel. -/
def subWordCI (word : List Char) (mid : Nat) (rep : Char) (s : List Char) : List Char :=
  subWordCIFuel word mid rep s.length s

/-- Models `_mangle_alert_words(msg)`: the five substitutions
`warning → warn1ng`, `error → err0r`, `fatal → fata1`, `fail → fai1`,
`exception → excepti0n`, applied in this order, case-insensitively. -/
def mangleAlertWords (msg : String) : String :=
  let m1 := subWordCI "warning".toList 4 '1' msg.toList
  let m2 := subWordCI "error".toList 3 '0' m1
  let m3 := subWordCI "fatal".toList 4 '1' m2
  let m4 := subWordCI "fail".toList 3 '1' m3
  let m5 := subWordCI "exception".toList 7 '0' m4
  String.mk m5

/-! ## Retry executor (`__retry_internal` in `ska_helpers/retry/api.py`)

A Python exception instance is embedded as an `Exc`: its concrete type is a
numeric tag `ty` and its stringified message (`str(e)`) is `msg`.  The
`exceptions` parameter of the retry functions (the set of exception types the
`except` clause catches) is a predicate on type tags.  The callable is a
function from the invocation index (0-based) to either a value or a raised
exception; delays and sleeps are rational numbers.  The `while _tries:` loop
is driven by explicit fuel; a run that would still be looping when the fuel
runs out yields the artificial `outOfFuel` marker, which no genuine outcome
of the source can produce.  The `jitter` parameter models the fixed-number
case of the source (the `isinstance(jitter, tuple)` branch draws a random
uniform sample and is outside this deterministic embedding; every claim
fixes a numeric jitter). -/

/-- Embeds one Python exception instance: concrete type tag plus `str(e)`. -/
structure Exc where
  ty : Nat
  msg : String
deriving DecidableEq

/-- Configuration of one retry session: the keyword arguments of
`__retry_internal` (equivalently of `retry` / `retry_call`). -/
structure RetryConfig where
  matched : Nat → Bool
  tries : Int
  delay : ℚ
  maxDelay : Option ℚ
  backoff : ℚ
  jitter : ℚ
  logger : Bool
  mangle : Bool

/-- The delay update performed after each sleep:
`_delay *= backoff; _delay += jitter;
if max_delay is not None: _delay = min(_delay, max_delay)`. -/
def updateDelay (d backoff jitter : ℚ) (maxDelay : Option ℚ) : ℚ :=
  match maxDelay with
  | none => d * backoff + jitter
  | some m => min (d * backoff + jitter) m

/-- How one run of `__retry_internal` terminates. -/
inductive ROutCore (V : Type) where
  | ok (v : V)
  | unmatched (e : Exc) (failures : List Exc)
  | reraise (e : Exc) (failures : List Exc)
  | aggregate (failures : List Exc)
  | noneRet
  | outOfFuel
deriving DecidableEq

/-- Result of a run: outcome, number of invocations of the callable,
cumulative `time.sleep` duration, and the `logger.warning` messages emitted,
in order. -/
structure RetryResult (V : Type) where
  out : ROutCore V
  calls : Nat
  slept : ℚ
  logs : List String
deriving DecidableEq

/-- The warning message built before each sleep:
`f"WARNING: {func_call} exception: {e}, retrying in {_delay} seconds..."`
with `func_call = f"{func_name}({call_args_str})"`; the rendered argument
string is taken as given. -/
def warnMsg (fname argsStr : String) (e : Exc) (d : ℚ) : String :=
  "WARNING: " ++ fname ++ "(" ++ argsStr ++ ") exception: " ++ e.msg ++
    ", retrying in " ++ toString d ++ " seconds..."

/-- The body of `__retry_internal` after `_tries, _delay = tries, delay;
failures = []`: one fuel-indexed step of `while _tries:`.  State arguments:
remaining tries `t` (`_tries`, an `Int`: `-1` means unbounded), current delay
`d` (`_delay`), failure history `fails`, invocation count `calls`, cumulative
sleep `slept`, emitted warnings `logs`. -/
def retryInternal {V : Type} (cfg : RetryConfig) (fname argsStr : String)
    (f : Nat → Except Exc V) :
    Nat → Int → ℚ → List Exc → Nat → ℚ → List String → RetryResult V
  | 0, _, _, _, calls, slept, logs => ⟨.outOfFuel, calls, slept, logs⟩
  | fuel + 1, t, d, fails, calls, slept, logs =>
    if t = 0 then ⟨.noneRet, calls, slept, logs⟩
    else
      match f calls with
      | .ok v => ⟨.ok v, calls + 1, slept, logs⟩
      | .error e =>
        if cfg.matched e.ty then
          let fails2 := fails ++ [e]
          let t2 := t - 1
          if t2 = 0 then
            if 1 < (fails2.map Exc.ty).dedup.length
                ∨ 1 < (fails2.map Exc.msg).dedup.length then
              ⟨.aggregate fails2, calls + 1, slept, logs⟩
            else
              ⟨.reraise e fails2, calls + 1, slept, logs⟩
          else
            let logs2 :=
              if cfg.logger then
                logs ++ [if cfg.mangle then mangleAlertWords (warnMsg fname argsStr e d)
                         else warnMsg fname argsStr e d]
              else logs
            retryInternal cfg fname argsStr f fuel t2
              (updateDelay d cfg.backoff cfg.jitter cfg.maxDelay)
              fails2 (calls + 1) (slept + d) logs2
        else ⟨.unmatched e fails, calls + 1, slept, logs⟩

/-- Models `retry_call(f, ...)` (and the wrapper produced by `retry(...)`):
run `__retry_internal` from the initial state. -/
def retryCall {V : Type} (cfg : RetryConfig) (fname argsStr : String)
    (f : Nat → Except Exc V) (fuel : Nat) : RetryResult V :=
  retryInternal cfg fname argsStr f fuel cfg.tries cfg.delay [] 0 0 []

/-- Total time slept over `n` consecutive sleeps when the first one uses
delay `d` and each subsequent delay is produced by `updateDelay`; a
specification-side measure used to state the backoff arithmetic claims. -/
def sleptSum (cfg : RetryConfig) : ℚ → Nat → ℚ
  | _, 0 => 0
  | d, n + 1 => d + sleptSum cfg (updateDelay d cfg.backoff cfg.jitter cfg.maxDelay) n

/-! ### Association-list lemmas -/

theorem lookupKey_eq_none_iff {K V : Type} [DecidableEq K] (k : K) (es : List (K × V)) :
    lookupKey k es = none ↔ k ∉ es.map Prod.fst := by
  induction es with
  | nil => simp [lookupKey]
  | cons p rest ih =>
    by_cases h : p.1 = k
    · simp [lookupKey, h]
    · have hne : ¬k = p.1 := fun hh => h hh.symm
      simp only [lookupKey, h, if_false, List.map_cons, List.mem_cons, ih]
      simp [hne]

theorem lookupKey_isSome_iff {K V : Type} [DecidableEq K] (k : K) (es : List (K × V)) :
    (lookupKey k es).isSome = true ↔ k ∈ es.map Prod.fst := by
  rw [Option.isSome_iff_ne_none, ne_eq, lookupKey_eq_none_iff, not_not]

theorem odSetItem_of_absent {K V : Type} [DecidableEq K] (k : K) (v : V)
    (es : List (K × V)) (h : lookupKey k es = none) :
    odSetItem k v es = es ++ [(k, v)] := by
  induction es with
  | nil => simp [odSetItem]
  | cons p rest ih =>
    by_cases hp : p.1 = k
    · simp [lookupKey, hp] at h
    · simp only [lookupKey, hp, if_false] at h
      simp [odSetItem, hp, ih h]

theorem odSetItem_append_absent {K V : Type} [DecidableEq K] (k : K) (v v0 : V)
    (l : List (K × V)) (h : k ∉ l.map Prod.fst) :
    odSetItem k v (l ++ [(k, v0)]) = l ++ [(k, v)] := by
  induction l with
  | nil => simp [odSetItem]
  | cons p rest ih =>
    simp only [List.map_cons, List.mem_cons] at h
    push_neg at h
    simp [odSetItem, Ne.symm h.1, ih h.2]

theorem removeKey_sublist {K V : Type} [DecidableEq K] (k : K) (es : List (K × V)) :
    (removeKey k es).Sublist es := by
  induction es with
  | nil => simp [removeKey]
  | cons p rest ih =>
    by_cases hp : p.1 = k
    · simp [removeKey, hp, List.sublist_cons_self]
    · simpa [removeKey, hp] using ih.cons₂ p

theorem length_removeKey_of_present {K V : Type} [DecidableEq K] (k : K)
    (es : List (K × V)) (v : V) (h : lookupKey k es = some v) :
    (removeKey k es).length + 1 = es.length := by
  induction es with
  | nil => simp [lookupKey] at h
  | cons p rest ih =>
    by_cases hp : p.1 = k
    · simp [removeKey, hp]
    · simp only [lookupKey, hp, if_false] at h
      simp [removeKey, hp, ih h]

theorem not_mem_keys_removeKey {K V : Type} [DecidableEq K] (k : K)
    (es : List (K × V)) (hnd : (es.map Prod.fst).Nodup) :
    k ∉ (removeKey k es).map Prod.fst := by
  induction es with
  | nil => simp [removeKey]
  | cons p rest ih =>
    simp only [List.map_cons, List.nodup_cons] at hnd
    by_cases hp : p.1 = k
    · subst hp
      simpa [removeKey] using hnd.1
    · intro hmem
      simp only [removeKey, hp, if_false, List.map_cons, List.mem_cons] at hmem
      rcases hmem with hmem | hmem
      · exact hp hmem.symm
      · exact ih hnd.2 hmem

theorem keys_removeKey_nodup {K V : Type} [DecidableEq K] (k : K)
    (es : List (K × V)) (hnd : (es.map Prod.fst).Nodup) :
    ((removeKey k es).map Prod.fst).Nodup :=
  hnd.sublist ((removeKey_sublist k es).map Prod.fst)

theorem removeKey_cons_head {K V : Type} [DecidableEq K] (p : K × V) (l : List (K × V)) :
    removeKey p.1 (p :: l) = l := by
  simp [removeKey]

/-! ### `setItem` characterization -/

theorem setItem_of_absent {K V : Type} [DecidableEq K] (d : LRUDict K V) (k : K) (v : V)
    (h : lookupKey k d.entries = none) :
    (d.setItem k v).entries =
      if d.capacity < d.entries.length + 1 then (d.entries ++ [(k, v)]).tail
      else d.entries ++ [(k, v)] := by
  unfold LRUDict.setItem
  rw [h]
  simp only [Option.isSome_none, Bool.false_eq_true, if_false,
    odSetItem_of_absent k v d.entries h, List.length_append, List.length_singleton]
  by_cases hc : d.capacity < d.entries.length + 1
  · cases hes : d.entries with
    | nil =>
      rw [hes] at hc
      simp only [List.length_nil] at hc
      simp [removeKey, hc]
    | cons p rest =>
      simp only [hc, if_pos, hes, List.cons_append, List.head?_cons,
        removeKey_cons_head, List.tail_cons]
  · simp [hc]

theorem setItem_of_present {K V : Type} [DecidableEq K] (d : LRUDict K V) (k : K)
    (v v0 : V) (hnd : (d.entries.map Prod.fst).Nodup)
    (h : lookupKey k d.entries = some v0) (hcap : d.entries.length ≤ d.capacity) :
    (d.setItem k v).entries = removeKey k d.entries ++ [(k, v)] ∧
      (d.setItem k v).entries.length = d.entries.length := by
  have hlen := length_removeKey_of_present k d.entries v0 h
  have hmem := not_mem_keys_removeKey k d.entries hnd
  have hes2 : odSetItem k v (moveToEnd k d.entries) = removeKey k d.entries ++ [(k, v)] := by
    rw [moveToEnd, h, odSetItem_append_absent k v v0 _ hmem]
  have hlen2 : (removeKey k d.entries ++ [(k, v)]).length = d.entries.length := by
    simp [List.length_append]; omega
  unfold LRUDict.setItem
  rw [h]
  simp only [Option.isSome_some, if_pos, hes2, hlen2]
  have hc : ¬d.capacity < d.entries.length := by omega
  simp [hc, hlen2]

/-! ### Well-formedness preservation -/

theorem keys_append_singleton_nodup {K V : Type} [DecidableEq K]
    (l : List (K × V)) (k : K) (v : V) (hnd : (l.map Prod.fst).Nodup)
    (hk : k ∉ l.map Prod.fst) : ((l ++ [(k, v)]).map Prod.fst).Nodup := by
  simp only [List.map_append, List.map_cons, List.map_nil]
  rw [List.nodup_append]
  refine ⟨hnd, List.nodup_singleton k, ?_⟩
  intro a ha hb
  simp only [List.mem_singleton] at hb
  exact hk (hb ▸ ha)

theorem wf_setItem {K V : Type} [DecidableEq K] (d : LRUDict K V) (k : K) (v : V)
    (hwf : WF d) : WF (d.setItem k v) := by
  obtain ⟨hcap, hnd⟩ := hwf
  have hcap' : (d.setItem k v).capacity = d.capacity := rfl
  cases hlk : lookupKey k d.entries with
  | none =>
    have hk : k ∉ d.entries.map Prod.fst := (lookupKey_eq_none_iff k d.entries).mp hlk
    have hnd' := keys_append_singleton_nodup d.entries k v hnd hk
    rw [WF, hcap', setItem_of_absent d k v hlk]
    by_cases hc : d.capacity < d.entries.length + 1
    · rw [if_pos hc]
      constructor
      · simp only [List.length_tail, List.length_append, List.length_singleton]
        omega
      · exact hnd'.sublist ((List.tail_sublist _).map Prod.fst)
    · rw [if_neg hc]
      constructor
      · simp only [List.length_append, List.length_singleton]; omega
      · exact hnd'
  | some v0 =>
    obtain ⟨hshape, hlen⟩ := setItem_of_present d k v v0 hnd hlk hcap
    rw [WF, hcap', hshape]
    constructor
    · rw [← hshape, hlen]; exact hcap
    · exact keys_append_singleton_nodup _ k v (keys_removeKey_nodup k d.entries hnd)
        (not_mem_keys_removeKey k d.entries hnd)

theorem wf_applyOp {K V : Type} [DecidableEq K] (d : LRUDict K V) (op : CacheOp K V)
    (hwf : WF d) : WF (applyOp d op) := by
  obtain ⟨hcap, hnd⟩ := hwf
  cases op with
  | set k v => exact wf_setItem d k v ⟨hcap, hnd⟩
  | get k =>
    cases hlk : lookupKey k d.entries with
    | none => simp only [applyOp, LRUDict.getItem, hlk]; exact ⟨hcap, hnd⟩
    | some v =>
      simp only [applyOp, LRUDict.getItem, hlk, moveToEnd]
      have hlen := length_removeKey_of_present k d.entries v hlk
      constructor
      · simp only [List.length_append, List.length_singleton]; omega
      · exact keys_append_singleton_nodup _ k v (keys_removeKey_nodup k d.entries hnd)
          (not_mem_keys_removeKey k d.entries hnd)
  | mem k => exact ⟨hcap, hnd⟩

theorem capacity_applyOp {K V : Type} [DecidableEq K] (d : LRUDict K V)
    (op : CacheOp K V) : (applyOp d op).capacity = d.capacity := by
  cases op with
  | set k v => rfl
  | get k =>
    cases hlk : lookupKey k d.entries with
    | none => simp [applyOp, LRUDict.getItem, hlk]
    | some v => simp [applyOp, LRUDict.getItem, hlk]
  | mem k => rfl

theorem WF_applyOps {K V : Type} [DecidableEq K] (d : LRUDict K V)
    (ops : List (CacheOp K V)) (hwf : WF d) : WF (applyOps d ops) := by
  induction ops generalizing d with
  | nil => exact hwf
  | cons op rest ih => exact ih _ (wf_applyOp d op hwf)

theorem capacity_applyOps {K V : Type} [DecidableEq K] (d : LRUDict K V)
    (ops : List (CacheOp K V)) : (applyOps d ops).capacity = d.capacity := by
  induction ops generalizing d with
  | nil => rfl
  | cons op rest ih => rw [applyOps, List.foldl_cons, ← applyOps, ih, capacity_applyOp]

theorem tail_append_singleton_of_ne_nil {K V : Type} (es : List (K × V)) (p : K × V)
    (h : es ≠ []) : (es ++ [p]).tail = es.tail ++ [p] := by
  cases es with
  | nil => exact absurd rfl h
  | cons q rest => simp

/-- C1: for every `LRUDict` built with capacity `C ≥ 1` and every sequence
of operations: the entry count never exceeds `C`; a `set` of a new key when
the dict is full removes exactly the least-recently-touched entry (the front
of the recency order) and appends the new entry at the most-recently-used
end; a `set` of a new key when not full evicts nothing; and a `set` of an
already-present key replaces its value, moves it to the most-recently-used
position and removes no other entry (the entry count is unchanged, so no
eviction). -/
theorem lru_capacity_and_eviction {K V : Type} [DecidableEq K] (C : Nat) (hC : 1 ≤ C)
    (ops : List (CacheOp K V)) (k : K) (v : V) :
    let d := applyOps (LRUDict.empty K V C) ops
    d.entries.length ≤ C
    ∧ (d.containsKey k = false → d.entries.length = C →
        (d.setItem k v).entries = d.entries.tail ++ [(k, v)]
        ∧ (d.setItem k v).entries.length = C)
    ∧ (d.containsKey k = false → d.entries.length < C →
        (d.setItem k v).entries = d.entries ++ [(k, v)])
    ∧ (d.containsKey k = true →
        (d.setItem k v).entries = removeKey k d.entries ++ [(k, v)]
        ∧ (d.setItem k v).entries.length = d.entries.length) := by
  intro d
  have hwfe : WF (LRUDict.empty K V C) := by
    constructor
    · simp [LRUDict.empty]
    · simp [LRUDict.empty]
  have hwf : WF d := WF_applyOps _ ops hwfe
  have hcapd : d.capacity = C := capacity_applyOps _ ops
  refine ⟨hcapd ▸ hwf.1, ?_, ?_, ?_⟩
  · intro habs hfull
    have hlk : lookupKey k d.entries = none := by
      rw [LRUDict.containsKey] at habs
      cases hlk : lookupKey k d.entries with
      | none => rfl
      | some v0 => rw [hlk] at habs; simp at habs
    rw [setItem_of_absent d k v hlk, hcapd, hfull, if_pos (by omega)]
    have hne : d.entries ≠ [] := by
      intro hnil
      rw [hnil] at hfull
      simp at hfull
      omega
    rw [tail_append_singleton_of_ne_nil d.entries (k, v) hne]
    constructor
    · rfl
    · simp only [List.length_append, List.length_tail, List.length_singleton, hfull]
      omega
  · intro habs hlt
    have hlk : lookupKey k d.entries = none := by
      rw [LRUDict.containsKey] at habs
      cases hlk : lookupKey k d.entries with
      | none => rfl
      | some v0 => rw [hlk] at habs; simp at habs
    rw [setItem_of_absent d k v hlk, hcapd, if_neg (by omega)]
  · intro hpres
    rw [LRUDict.containsKey] at hpres
    cases hlk : lookupKey k d.entries with
    | none => rw [hlk] at hpres; simp at hpres
    | some v0 => exact setItem_of_present d k v v0 hwf.2 hlk (hcapd ▸ hwf.1)

/-- Witness for C1 at capacity 2, the operation sequence
`set 1 10; set 2 20` and the new key `3`. -/
theorem lru_capacity_and_eviction_witness :
    1 ≤ 2 ∧
    (let d := applyOps (LRUDict.empty Nat Nat 2) [CacheOp.set 1 10, CacheOp.set 2 20]
     d.entries.length ≤ 2
     ∧ (d.containsKey 3 = false → d.entries.length = 2 →
         (d.setItem 3 30).entries = d.entries.tail ++ [(3, 30)]
         ∧ (d.setItem 3 30).entries.length = 2)
     ∧ (d.containsKey 3 = false → d.entries.length < 2 →
         (d.setItem 3 30).entries = d.entries ++ [(3, 30)])
     ∧ (d.containsKey 3 = true →
         (d.setItem 3 30).entries = removeKey 3 d.entries ++ [(3, 30)]
         ∧ (d.setItem 3 30).entries.length = d.entries.length)) :=
  ⟨by decide,
    lru_capacity_and_eviction 2 (by decide) [CacheOp.set 1 10, CacheOp.set 2 20] 3 30⟩

/-- C2: a `get` on a present key returns the stored value and moves that key
to the most-recently-used end of the recency order, and the `in` membership
test (here `CacheOp.mem`) never changes the cache: a single `mem` is the
identity on the state, hence repeated `mem` calls are idempotent on it. -/
theorem lru_get_mru_and_mem_pure {K V : Type} [DecidableEq K] (d : LRUDict K V)
    (k : K) (v : V) (h : lookupKey k d.entries = some v) :
    d.getItem k = some (v, ⟨d.capacity, removeKey k d.entries ++ [(k, v)]⟩)
    ∧ (∃ d', d.getItem k = some (v, d') ∧ d'.entries.getLast? = some (k, v))
    ∧ (∀ k', applyOp d (CacheOp.mem k') = d)
    ∧ (∀ (k' : K) (n : Nat), applyOps d (List.replicate n (CacheOp.mem k')) = d) := by
  have hget : d.getItem k = some (v, ⟨d.capacity, removeKey k d.entries ++ [(k, v)]⟩) := by
    rw [LRUDict.getItem, h, moveToEnd, h]
  refine ⟨hget, ⟨_, hget, ?_⟩, fun _ => rfl, fun k' n => ?_⟩
  · exact List.getLast?_concat _
  · induction n with
    | zero => rfl
    | succ m ih =>
      rw [List.replicate_succ, applyOps, List.foldl_cons]
      exact ih

/-- Witness for C2 on the two-entry cache with entries (1, 10), (2, 20) and key 1. -/
theorem lru_get_mru_and_mem_pure_witness :
    lookupKey 1 (⟨2, [(1, 10), (2, 20)]⟩ : LRUDict Nat Nat).entries = some 10 ∧
    ((⟨2, [(1, 10), (2, 20)]⟩ : LRUDict Nat Nat).getItem 1
        = some (10, ⟨2, removeKey 1 [(1, 10), (2, 20)] ++ [(1, 10)]⟩)
    ∧ (∃ d', (⟨2, [(1, 10), (2, 20)]⟩ : LRUDict Nat Nat).getItem 1 = some (10, d')
        ∧ d'.entries.getLast? = some (1, 10))
    ∧ (∀ k', applyOp (⟨2, [(1, 10), (2, 20)]⟩ : LRUDict Nat Nat) (CacheOp.mem k')
        = ⟨2, [(1, 10), (2, 20)]⟩)
    ∧ (∀ (k' : Nat) (n : Nat),
        applyOps (⟨2, [(1, 10), (2, 20)]⟩ : LRUDict Nat Nat)
          (List.replicate n (CacheOp.mem k')) = ⟨2, [(1, 10), (2, 20)]⟩)) :=
  ⟨by decide, lru_get_mru_and_mem_pure (⟨2, [(1, 10), (2, 20)]⟩ : LRUDict Nat Nat) 1 10
    (by decide)⟩

/-- C9: a `get` on an absent key fails with `KeyError` (modelled as `none`)
and leaves the cache completely unchanged: the `move_to_end` step is on the
far side of the failing `super().__getitem__` call and is never reached. -/
theorem lru_get_missing_unchanged {K V : Type} [DecidableEq K] (d : LRUDict K V)
    (k : K) (h : lookupKey k d.entries = none) :
    d.getItem k = none ∧ applyOp d (CacheOp.get k) = d := by
  constructor
  · rw [LRUDict.getItem, h]
  · simp only [applyOp, LRUDict.getItem, h]

/-! ### Retry executor lemmas -/

theorem dedup_replicate_succ {α : Type} [DecidableEq α] (a : α) (n : Nat) :
    (List.replicate (n + 1) a).dedup = [a] := by
  induction n with
  | zero => simp
  | succ m ih =>
    rw [List.replicate_succ, List.dedup_cons_of_mem (by simp), ih]

theorem sleptSum_of_fixed (cfg : RetryConfig) (d : ℚ)
    (h : updateDelay d cfg.backoff cfg.jitter cfg.maxDelay = d) :
    ∀ n : Nat, sleptSum cfg d n = d * n := by
  intro n
  induction n with
  | zero => simp [sleptSum]
  | succ m ih =>
    rw [sleptSum, h, ih]
    push_cast
    ring

/-- Closed form of a whole retry session against a callable that raises the
matched exception `exc i` on its `i`-th invocation: with `tries = n ≥ 1` and
fuel `n`, the run makes exactly `n` calls, sleeps `n - 1` times with the
delays generated by `updateDelay`, records one failure per attempt in order,
and ends with the aggregate error exactly when the failures are heterogeneous
in type or stringified message, otherwise re-raising the last exception. -/
theorem retryInternal_allFail {V : Type} (cfg : RetryConfig) (fn astr : String)
    (exc : Nat → Exc) (hm : ∀ i, cfg.matched (exc i).ty = true) :
    ∀ (n : Nat) (d : ℚ) (fails : List Exc) (calls : Nat) (slept : ℚ)
      (logs : List String),
      (retryInternal (V := V) cfg fn astr (fun i => Except.error (exc i)) (n + 1)
          ((n + 1 : Nat) : Int) d fails calls slept logs).out
        = (if 1 < ((fails ++ (List.range' calls (n + 1)).map exc).map Exc.ty).dedup.length
              ∨ 1 < ((fails ++ (List.range' calls (n + 1)).map exc).map Exc.msg).dedup.length
           then ROutCore.aggregate (fails ++ (List.range' calls (n + 1)).map exc)
           else ROutCore.reraise (exc (calls + n))
                  (fails ++ (List.range' calls (n + 1)).map exc))
      ∧ (retryInternal (V := V) cfg fn astr (fun i => Except.error (exc i)) (n + 1)
          ((n + 1 : Nat) : Int) d fails calls slept logs).calls = calls + (n + 1)
      ∧ (retryInternal (V := V) cfg fn astr (fun i => Except.error (exc i)) (n + 1)
          ((n + 1 : Nat) : Int) d fails calls slept logs).slept = slept + sleptSum cfg d n := by
  intro n
  induction n with
  | zero =>
    intro d fails calls slept logs
    rw [retryInternal, if_neg (by norm_num)]
    simp only [hm, eq_self_iff_true, if_true, Nat.zero_add, Nat.cast_one, sub_self,
      if_pos rfl, List.range'_one, List.map_cons, List.map_nil, sleptSum, add_zero]
    refine ⟨?_, ?_, ?_⟩ <;> (split <;> rfl)
  | succ m ih =>
    intro d fails calls slept logs
    have ht0 : ((m + 1 + 1 : Nat) : Int) ≠ 0 := by push_cast; omega
    have ht1 : ((m + 1 + 1 : Nat) : Int) - 1 ≠ 0 := by push_cast; omega
    have htm : ((m + 1 + 1 : Nat) : Int) - 1 = ((m + 1 : Nat) : Int) := by push_cast; ring
    rw [retryInternal, if_neg ht0]
    simp only [hm, eq_self_iff_true, if_true]
    rw [if_neg ht1, htm]
    obtain ⟨iho, ihc, ihs⟩ :=
      ih (updateDelay d cfg.backoff cfg.jitter cfg.maxDelay) (fails ++ [exc calls])
        (calls + 1) (slept + d)
        (if cfg.logger then
          logs ++ [if cfg.mangle then mangleAlertWords (warnMsg fn astr (exc calls) d)
                   else warnMsg fn astr (exc calls) d]
         else logs)
    have hlist : (fails ++ [exc calls]) ++ (List.range' (calls + 1) (m + 1)).map exc
        = fails ++ (List.range' calls (m + 1 + 1)).map exc := by
      simp [List.range'_succ]
    refine ⟨?_, ?_, ?_⟩
    · rw [iho, hlist]
      have hidx : calls + 1 + m = calls + (m + 1) := by omega
      rw [hidx]
    · rw [ihc]
      omega
    · rw [ihs, sleptSum]
      ring

/-- With a negative `tries` value the loop counter never reaches zero: if the
callable fails with matched exceptions for `n` invocations and then succeeds,
the run returns the success value after exactly `n + 1` invocations. -/
theorem retryInternal_unbounded_ok {V : Type} (cfg : RetryConfig) (fn astr : String)
    (f : Nat → Except Exc V) (v : V) :
    ∀ (n : Nat) (t : Int), t < 0 → ∀ (d : ℚ) (fails : List Exc) (calls : Nat) (slept : ℚ)
      (logs : List String),
      (∀ i, i < n → ∃ e, f (calls + i) = Except.error e ∧ cfg.matched e.ty = true) →
      f (calls + n) = Except.ok v →
      (retryInternal cfg fn astr f (n + 1) t d fails calls slept logs).out = ROutCore.ok v
      ∧ (retryInternal cfg fn astr f (n + 1) t d fails calls slept logs).calls
          = calls + n + 1 := by
  intro n
  induction n with
  | zero =>
    intro t ht d fails calls slept logs hfail hok
    rw [Nat.add_zero] at hok
    rw [retryInternal, if_neg (by omega), hok]
    exact ⟨rfl, rfl⟩
  | succ m ih =>
    intro t ht d fails calls slept logs hfail hok
    obtain ⟨e, hfe, hme⟩ := hfail 0 (by omega)
    rw [Nat.add_zero] at hfe
    rw [retryInternal, if_neg (by omega), hfe]
    simp only [hme, eq_self_iff_true, if_true]
    rw [if_neg (show ¬t - 1 = 0 by omega)]
    have hshift : ∀ i, i < m → ∃ e2, f (calls + 1 + i) = Except.error e2
        ∧ cfg.matched e2.ty = true := by
      intro i hi
      obtain ⟨e2, he2, hm2⟩ := hfail (i + 1) (by omega)
      refine ⟨e2, ?_, hm2⟩
      rwa [show calls + (i + 1) = calls + 1 + i by omega] at he2
    have hok2 : f (calls + 1 + m) = Except.ok v := by
      rwa [show calls + (m + 1) = calls + 1 + m by omega] at hok
    have H := ih (t - 1) (by omega) (updateDelay d cfg.backoff cfg.jitter cfg.maxDelay)
      (fails ++ [e]) (calls + 1) (slept + d)
      (if cfg.logger then
        logs ++ [if cfg.mangle then mangleAlertWords (warnMsg fn astr e d)
                 else warnMsg fn astr e d]
       else logs) hshift hok2
    refine ⟨H.1, ?_⟩
    rw [H.2]
    omega

/-- Switching `mangle_alert_words` on changes only the strings handed to
`logger.warning` (each becomes its mangled form); the outcome, the number of
calls, the slept time — and in particular every recorded or re-raised
exception, type and message — are identical to the run without mangling. -/
theorem retryInternal_mangle_log_only {V : Type} (cfg : RetryConfig) (fn astr : String)
    (f : Nat → Except Exc V) :
    ∀ (fuel : Nat) (t : Int) (d : ℚ) (fails : List Exc) (calls : Nat) (slept : ℚ)
      (logsF logsT : List String), logsT = logsF.map mangleAlertWords →
      (retryInternal {cfg with mangle := true} fn astr f fuel t d fails calls slept logsT).out
        = (retryInternal {cfg with mangle := false} fn astr f fuel t d fails calls slept logsF).out
      ∧ (retryInternal {cfg with mangle := true} fn astr f fuel t d fails calls slept logsT).calls
        = (retryInternal {cfg with mangle := false} fn astr f fuel t d fails calls slept logsF).calls
      ∧ (retryInternal {cfg with mangle := true} fn astr f fuel t d fails calls slept logsT).slept
        = (retryInternal {cfg with mangle := false} fn astr f fuel t d fails calls slept logsF).slept
      ∧ (retryInternal {cfg with mangle := true} fn astr f fuel t d fails calls slept logsT).logs
        = ((retryInternal {cfg with mangle := false} fn astr f fuel t d fails calls
              slept logsF).logs).map mangleAlertWords := by
  intro fuel
  induction fuel with
  | zero =>
    intro t d fails calls slept logsF logsT hrel
    rw [retryInternal, retryInternal]
    exact ⟨rfl, rfl, rfl, hrel⟩
  | succ m ih =>
    intro t d fails calls slept logsF logsT hrel
    rw [retryInternal, retryInternal]
    by_cases ht : t = 0
    · rw [if_pos ht, if_pos ht]
      exact ⟨rfl, rfl, rfl, hrel⟩
    · rw [if_neg ht, if_neg ht]
      cases hf : f calls with
      | ok v => exact ⟨rfl, rfl, rfl, hrel⟩
      | error e =>
        simp only []
        by_cases hme : cfg.matched e.ty = true
        · simp only [hme, eq_self_iff_true, if_true]
          by_cases ht2 : t - 1 = 0
          · rw [if_pos ht2, if_pos ht2]
            by_cases hagg : 1 < ((fails ++ [e]).map Exc.ty).dedup.length
                ∨ 1 < ((fails ++ [e]).map Exc.msg).dedup.length
            · rw [if_pos hagg, if_pos hagg]
              exact ⟨rfl, rfl, rfl, hrel⟩
            · rw [if_neg hagg, if_neg hagg]
              exact ⟨rfl, rfl, rfl, hrel⟩
          · rw [if_neg ht2, if_neg ht2]
            apply ih
            by_cases hlg : cfg.logger = true
            · simp only [hlg, eq_self_iff_true, if_true, Bool.false_eq_true, if_false,
                List.map_append, hrel, List.map_cons, List.map_nil]
            · have hlg2 : cfg.logger = false := by
                cases h2 : cfg.logger with
                | true => exact absurd h2 hlg
                | false => rfl
              simp only [hlg2, Bool.false_eq_true, if_false]
              exact hrel
        · have hme2 : cfg.matched e.ty = false := by
            cases hme3 : cfg.matched e.ty with
            | true => exact absurd hme3 hme
            | false => rfl
          simp [hme2, hrel]

/-- C3: with `tries=5`, initial delay `d`, `backoff=2`, `jitter=0`, no
`max_delay`, and a callable that raises the same matched exception on every
invocation, the callable is invoked exactly 5 times, the exception finally
raised is the callable's own exception (same type), and the cumulative sleep
is the sum of `d * 2 ^ i` for `i` from 0 to 3 — four inter-attempt sleeps,
each using the delay value before that step's backoff update. -/
theorem retry_five_attempts_backoff_sum (m : Nat → Bool) (e : Exc) (hm : m e.ty = true)
    (d : ℚ) (lg mg : Bool) (fn astr : String) :
    (retryCall (V := Nat) ⟨m, 5, d, none, 2, 0, lg, mg⟩ fn astr
        (fun _ => Except.error e) 5).calls = 5
    ∧ (retryCall (V := Nat) ⟨m, 5, d, none, 2, 0, lg, mg⟩ fn astr
        (fun _ => Except.error e) 5).out = ROutCore.reraise e [e, e, e, e, e]
    ∧ (retryCall (V := Nat) ⟨m, 5, d, none, 2, 0, lg, mg⟩ fn astr
        (fun _ => Except.error e) 5).slept = ∑ i ∈ Finset.range 4, d * 2 ^ i := by
  have hmm : ∀ i, (⟨m, 5, d, none, 2, 0, lg, mg⟩ : RetryConfig).matched
      ((fun _ : Nat => e) i).ty = true := fun _ => hm
  obtain ⟨Ho, Hc, Hs⟩ := retryInternal_allFail (V := Nat) ⟨m, 5, d, none, 2, 0, lg, mg⟩
    fn astr (fun _ => e) hmm 4 d [] 0 0 []
  have hrange : List.range' 0 (4 + 1) = [0, 1, 2, 3, 4] := by decide
  rw [hrange] at Ho
  simp only [List.map_cons, List.map_nil, List.nil_append] at Ho
  have hded1 : ([e.ty, e.ty, e.ty, e.ty, e.ty] : List Nat).dedup = [e.ty] :=
    dedup_replicate_succ e.ty 4
  have hded2 : ([e.msg, e.msg, e.msg, e.msg, e.msg] : List String).dedup = [e.msg] :=
    dedup_replicate_succ e.msg 4
  rw [hded1, hded2, if_neg (by norm_num)] at Ho
  norm_num at Ho Hc Hs
  refine ⟨?_, ?_, ?_⟩
  · rw [retryCall]
    exact Hc
  · rw [retryCall]
    exact Ho
  · rw [retryCall]
    rw [Hs]
    simp only [sleptSum, updateDelay, Finset.sum_range_succ, Finset.sum_range_zero]
    ring

/-- Witness for C3 with the exception type 0, message "boom" and delay 1. -/
theorem retry_five_attempts_backoff_sum_witness :
    (fun _ : Nat => true) (⟨0, "boom"⟩ : Exc).ty = true
    ∧ ((retryCall (V := Nat) ⟨fun _ => true, 5, 1, none, 2, 0, false, false⟩ "f" ""
          (fun _ => Except.error ⟨0, "boom"⟩) 5).calls = 5
      ∧ (retryCall (V := Nat) ⟨fun _ => true, 5, 1, none, 2, 0, false, false⟩ "f" ""
          (fun _ => Except.error ⟨0, "boom"⟩) 5).out
            = ROutCore.reraise ⟨0, "boom"⟩
                [⟨0, "boom"⟩, ⟨0, "boom"⟩, ⟨0, "boom"⟩, ⟨0, "boom"⟩, ⟨0, "boom"⟩]
      ∧ (retryCall (V := Nat) ⟨fun _ => true, 5, 1, none, 2, 0, false, false⟩ "f" ""
          (fun _ => Except.error ⟨0, "boom"⟩) 5).slept
            = ∑ i ∈ Finset.range 4, 1 * 2 ^ i) :=
  ⟨rfl, retry_five_attempts_backoff_sum (fun _ => true) ⟨0, "boom"⟩ rfl 1 false false "f" ""⟩

/-- C4: when the attempt budget `tries = t ≥ 1` is exhausted by matched
failures, the failure history holds one record per attempt in order (length
`t`); if the recorded failures are heterogeneous in exception type or in
stringified message, the aggregate `RetryError` is raised carrying that
history, otherwise the original exception is re-raised unchanged. -/
theorem retry_exhaustion_aggregate_or_reraise (m : Nat → Bool) (exc : Nat → Exc)
    (t : Nat) (ht : 1 ≤ t) (hm : ∀ i, m (exc i).ty = true) (d : ℚ) (mx : Option ℚ)
    (b j : ℚ) (lg mg : Bool) (fn astr : String) :
    ((List.range t).map exc).length = t
    ∧ (retryCall (V := Nat) ⟨m, (t : Int), d, mx, b, j, lg, mg⟩ fn astr
        (fun i => Except.error (exc i)) t).calls = t
    ∧ ((1 < (((List.range t).map exc).map Exc.ty).dedup.length
          ∨ 1 < (((List.range t).map exc).map Exc.msg).dedup.length) →
        (retryCall (V := Nat) ⟨m, (t : Int), d, mx, b, j, lg, mg⟩ fn astr
          (fun i => Except.error (exc i)) t).out
            = ROutCore.aggregate ((List.range t).map exc))
    ∧ (¬(1 < (((List.range t).map exc).map Exc.ty).dedup.length
          ∨ 1 < (((List.range t).map exc).map Exc.msg).dedup.length) →
        (retryCall (V := Nat) ⟨m, (t : Int), d, mx, b, j, lg, mg⟩ fn astr
          (fun i => Except.error (exc i)) t).out
            = ROutCore.reraise (exc (t - 1)) ((List.range t).map exc)) := by
  obtain ⟨k, rfl⟩ : ∃ k, t = k + 1 := ⟨t - 1, by omega⟩
  have hmm : ∀ i, (⟨m, ((k + 1 : Nat) : Int), d, mx, b, j, lg, mg⟩ : RetryConfig).matched
      (exc i).ty = true := hm
  obtain ⟨Ho, Hc, Hs⟩ := retryInternal_allFail (V := Nat)
    ⟨m, ((k + 1 : Nat) : Int), d, mx, b, j, lg, mg⟩ fn astr exc hmm k d [] 0 0 []
  simp only [List.nil_append, ← List.range_eq_range', Nat.zero_add] at Ho Hc
  refine ⟨by simp, ?_, ?_, ?_⟩
  · rw [retryCall]
    exact Hc
  · intro hagg
    rw [retryCall, Ho, if_pos hagg]
  · intro hagg
    rw [retryCall, Ho, if_neg hagg]
    have hidx : k = k + 1 - 1 := by omega
    rw [← hidx]

/-- Witness for C4 with two attempts raising different exception types. -/
theorem retry_exhaustion_aggregate_or_reraise_witness :
    1 ≤ 2
    ∧ (∀ i, (fun _ : Nat => true) ((fun i2 : Nat => (⟨i2, "x"⟩ : Exc)) i).ty = true)
    ∧ (((List.range 2).map (fun i2 : Nat => (⟨i2, "x"⟩ : Exc))).length = 2
      ∧ (retryCall (V := Nat) ⟨fun _ => true, ((2 : Nat) : Int), 0, none, 1, 0, false, false⟩
          "f" "" (fun i => Except.error ⟨i, "x"⟩) 2).calls = 2
      ∧ ((1 < (((List.range 2).map (fun i2 : Nat => (⟨i2, "x"⟩ : Exc))).map Exc.ty).dedup.length
            ∨ 1 < (((List.range 2).map (fun i2 : Nat => (⟨i2, "x"⟩ : Exc))).map
                Exc.msg).dedup.length) →
          (retryCall (V := Nat) ⟨fun _ => true, ((2 : Nat) : Int), 0, none, 1, 0, false, false⟩
            "f" "" (fun i => Except.error ⟨i, "x"⟩) 2).out
              = ROutCore.aggregate ((List.range 2).map (fun i2 : Nat => (⟨i2, "x"⟩ : Exc))))
      ∧ (¬(1 < (((List.range 2).map (fun i2 : Nat => (⟨i2, "x"⟩ : Exc))).map
              Exc.ty).dedup.length
            ∨ 1 < (((List.range 2).map (fun i2 : Nat => (⟨i2, "x"⟩ : Exc))).map
                Exc.msg).dedup.length) →
          (retryCall (V := Nat) ⟨fun _ => true, ((2 : Nat) : Int), 0, none, 1, 0, false, false⟩
            "f" "" (fun i => Except.error ⟨i, "x"⟩) 2).out
              = ROutCore.reraise ((fun i2 : Nat => (⟨i2, "x"⟩ : Exc)) (2 - 1))
                  ((List.range 2).map (fun i2 : Nat => (⟨i2, "x"⟩ : Exc))))) :=
  ⟨by decide, fun _ => rfl,
    retry_exhaustion_aggregate_or_reraise (fun _ => true) (fun i2 => ⟨i2, "x"⟩) 2
      (by decide) (fun _ => rfl) 0 none 1 0 false false "f" ""⟩

/-- C5: an exception whose type is not in the matched set is never caught:
from whatever loop state the failing attempt starts in, the run terminates
at once with that exception, with no extra sleep, no appended failure
record, and no extra warning logged. -/
theorem retry_unmatched_propagates {V : Type} (cfg : RetryConfig) (fn astr : String)
    (f : Nat → Except Exc V) (fuel : Nat) (t : Int) (d : ℚ) (fails : List Exc)
    (calls : Nat) (slept : ℚ) (logs : List String) (e : Exc) (ht : t ≠ 0)
    (hf : f calls = Except.error e) (hm : cfg.matched e.ty = false) :
    retryInternal cfg fn astr f (fuel + 1) t d fails calls slept logs
      = ⟨ROutCore.unmatched e fails, calls + 1, slept, logs⟩ := by
  rw [retryInternal, if_neg ht, hf]
  simp [hm]

/-- Witness for C5: an unmatched exception on the first attempt of a
three-try session propagates at once. -/
theorem retry_unmatched_propagates_witness :
    ((3 : Int) ≠ 0
      ∧ (fun _ : Nat => (Except.error ⟨7, "bad"⟩ : Except Exc Nat)) 0
          = Except.error ⟨7, "bad"⟩
      ∧ (fun _ : Nat => false) (⟨7, "bad"⟩ : Exc).ty = false)
    ∧ retryInternal (V := Nat) ⟨fun _ => false, 3, 0, none, 1, 0, false, false⟩ "f" ""
        (fun _ => Except.error ⟨7, "bad"⟩) (2 + 1) 3 0 [] 0 0 []
          = ⟨ROutCore.unmatched ⟨7, "bad"⟩ [], 0 + 1, 0, []⟩ :=
  ⟨⟨by decide, rfl, rfl⟩,
    retry_unmatched_propagates ⟨fun _ => false, 3, 0, none, 1, 0, false, false⟩ "f" ""
      (fun _ => Except.error ⟨7, "bad"⟩) 2 3 0 [] 0 0 [] ⟨7, "bad"⟩ (by decide) rfl rfl⟩

/-- C6: the inter-attempt delay update is
`min(delay * backoff + jitter, max_delay)` — the jitter term is added before
capping — and without `max_delay` no clamping occurs; consequently with
`backoff=2`, `max_delay` equal to the (nonnegative) initial delay, `jitter=0`
and an always-failing matched callable with `tries = t`, the total time slept
is `delay * (t - 1)`. -/
theorem retry_delay_update_and_cap (d b j mxv : ℚ) (t : Nat) (ht : 1 ≤ t) (hd : 0 ≤ d)
    (m : Nat → Bool) (e : Exc) (hm : m e.ty = true) (lg mg : Bool) (fn astr : String) :
    updateDelay d b j (some mxv) = min (d * b + j) mxv
    ∧ updateDelay d b j none = d * b + j
    ∧ (retryCall (V := Nat) ⟨m, (t : Int), d, some d, 2, 0, lg, mg⟩ fn astr
        (fun _ => Except.error e) t).slept = d * ((t : ℚ) - 1) := by
  refine ⟨rfl, rfl, ?_⟩
  obtain ⟨k, rfl⟩ : ∃ k, t = k + 1 := ⟨t - 1, by omega⟩
  have hmm : ∀ i, (⟨m, ((k + 1 : Nat) : Int), d, some d, 2, 0, lg, mg⟩ : RetryConfig).matched
      ((fun _ : Nat => e) i).ty = true := fun _ => hm
  obtain ⟨Ho, Hc, Hs⟩ := retryInternal_allFail (V := Nat)
    ⟨m, ((k + 1 : Nat) : Int), d, some d, 2, 0, lg, mg⟩ fn astr (fun _ => e) hmm k d [] 0 0 []
  rw [retryCall, Hs]
  have hfix : updateDelay d
      (⟨m, ((k + 1 : Nat) : Int), d, some d, 2, 0, lg, mg⟩ : RetryConfig).backoff
      (⟨m, ((k + 1 : Nat) : Int), d, some d, 2, 0, lg, mg⟩ : RetryConfig).jitter
      (⟨m, ((k + 1 : Nat) : Int), d, some d, 2, 0, lg, mg⟩ : RetryConfig).maxDelay = d := by
    show min (d * 2 + 0) d = d
    rw [min_eq_right (by linarith)]
  rw [sleptSum_of_fixed _ d hfix k]
  push_cast
  ring

/-- Witness for C6 with delay 1 and three tries. -/
theorem retry_delay_update_and_cap_witness :
    (1 ≤ 3 ∧ (0 : ℚ) ≤ 1 ∧ (fun _ : Nat => true) (⟨0, "x"⟩ : Exc).ty = true)
    ∧ (updateDelay 1 2 0 (some 5) = min (1 * 2 + 0) 5
      ∧ updateDelay 1 2 0 none = 1 * 2 + 0
      ∧ (retryCall (V := Nat) ⟨fun _ => true, ((3 : Nat) : Int), 1, some 1, 2, 0,
            false, false⟩ "f" "" (fun _ => Except.error ⟨0, "x"⟩) 3).slept
          = 1 * (((3 : Nat) : ℚ) - 1)) :=
  ⟨⟨by decide, by decide, rfl⟩,
    retry_delay_update_and_cap 1 2 0 5 3 (by decide) (by decide) (fun _ => true)
      ⟨0, "x"⟩ rfl false false "f" ""⟩

/-- C7: with `tries = -1` (unbounded) the loop counter never reaches zero,
so the exhausted state is unreachable: a callable that raises matched
exceptions on its first 9 invocations and succeeds on the 10th yields the
success value after exactly 10 invocations. -/
theorem retry_unbounded_success_tenth {V : Type} (m : Nat → Bool) (v : V)
    (f : Nat → Except Exc V) (d : ℚ) (mx : Option ℚ) (b j : ℚ) (lg mg : Bool)
    (fn astr : String)
    (hfail : ∀ i, i < 9 → ∃ e, f i = Except.error e ∧ m e.ty = true)
    (hok : f 9 = Except.ok v) :
    (retryCall ⟨m, -1, d, mx, b, j, lg, mg⟩ fn astr f 10).out = ROutCore.ok v
    ∧ (retryCall ⟨m, -1, d, mx, b, j, lg, mg⟩ fn astr f 10).calls = 10 := by
  have H := retryInternal_unbounded_ok ⟨m, -1, d, mx, b, j, lg, mg⟩ fn astr f v 9 (-1)
    (by norm_num) d [] 0 0 [] (by simpa using hfail) (by simpa using hok)
  obtain ⟨H1, H2⟩ := H
  norm_num at H1 H2
  constructor
  · rw [retryCall]
    exact H1
  · rw [retryCall]
    exact H2

/-- Witness for C7: fail with a matched exception on calls 0–8, succeed with
the value 42 on call 9. -/
theorem retry_unbounded_success_tenth_witness :
    ((∀ i, i < 9 → ∃ e, (fun i2 : Nat => if i2 < 9 then Except.error (⟨1, "t"⟩ : Exc)
          else Except.ok (42 : Nat)) i = Except.error e ∧ (fun _ : Nat => true) e.ty = true)
      ∧ (fun i2 : Nat => if i2 < 9 then Except.error (⟨1, "t"⟩ : Exc)
          else Except.ok (42 : Nat)) 9 = Except.ok 42)
    ∧ ((retryCall ⟨fun _ => true, -1, 0, none, 1, 0, false, false⟩ "f" ""
          (fun i2 : Nat => if i2 < 9 then Except.error (⟨1, "t"⟩ : Exc)
            else Except.ok (42 : Nat)) 10).out = ROutCore.ok 42
      ∧ (retryCall ⟨fun _ => true, -1, 0, none, 1, 0, false, false⟩ "f" ""
          (fun i2 : Nat => if i2 < 9 then Except.error (⟨1, "t"⟩ : Exc)
            else Except.ok (42 : Nat)) 10).calls = 10) :=
  ⟨⟨fun i hi => ⟨⟨1, "t"⟩, by simp [hi], rfl⟩, rfl⟩,
    retry_unbounded_success_tenth (fun _ => true) 42
      (fun i2 => if i2 < 9 then Except.error ⟨1, "t"⟩ else Except.ok 42)
      0 none 1 0 false false "f" ""
      (fun i hi => ⟨⟨1, "t"⟩, by simp [hi], rfl⟩) rfl⟩

/-- C8: the alert-word mangling transform rewrites, case-insensitively, an
interior character of each occurrence of "warning", "error", "fatal",
"fail" and "exception" to a digit look-alike, and — when the mangle flag is
set — is applied only to the strings handed to `logger.warning`: outcome,
call count, slept time and every recorded or raised exception (type and
message) are identical to the unmangled run, and each logged string is
exactly the mangled form of the corresponding unmangled message. -/
theorem mangle_alert_words_log_only :
    mangleAlertWords "warning" = "warn1ng"
    ∧ mangleAlertWords "error" = "err0r"
    ∧ mangleAlertWords "fatal" = "fata1"
    ∧ mangleAlertWords "fail" = "fai1"
    ∧ mangleAlertWords "exception" = "excepti0n"
    ∧ mangleAlertWords "WARNING: This is a fatal Error message."
        = "WARN1NG: This is a fata1 Err0r message."
    ∧ ∀ (V : Type) (cfg : RetryConfig) (fn astr : String) (f : Nat → Except Exc V)
        (fuel : Nat) (t : Int) (d : ℚ) (fails : List Exc) (calls : Nat) (slept : ℚ),
        (retryInternal {cfg with mangle := true} fn astr f fuel t d fails calls slept []).out
          = (retryInternal {cfg with mangle := false} fn astr f fuel t d fails calls slept []).out
        ∧ (retryInternal {cfg with mangle := true} fn astr f fuel t d fails calls slept []).calls
          = (retryInternal {cfg with mangle := false} fn astr f fuel t d fails calls slept []).calls
        ∧ (retryInternal {cfg with mangle := true} fn astr f fuel t d fails calls slept []).slept
          = (retryInternal {cfg with mangle := false} fn astr f fuel t d fails calls slept []).slept
        ∧ (retryInternal {cfg with mangle := true} fn astr f fuel t d fails calls slept []).logs
          = ((retryInternal {cfg with mangle := false} fn astr f fuel t d fails calls
                slept []).logs).map mangleAlertWords := by
  refine ⟨by decide, by decide, by decide, by decide, by decide, by decide, ?_⟩
  intro V cfg fn astr f fuel t d fails calls slept
  exact retryInternal_mangle_log_only cfg fn astr f fuel t d fails calls slept [] [] rfl

/-- C10: with `tries = 0` the `while _tries:` condition is false at once, so
the callable is never invoked and the function returns `None`: no result
value, no exception, no sleep, no failure history, no log. -/
theorem retry_zero_tries_returns_none {V : Type} (m : Nat → Bool) (d : ℚ) (mx : Option ℚ)
    (b j : ℚ) (lg mg : Bool) (fn astr : String) (f : Nat → Except Exc V) (fuel : Nat) :
    retryCall ⟨m, 0, d, mx, b, j, lg, mg⟩ fn astr f (fuel + 1)
      = ⟨ROutCore.noneRet, 0, 0, []⟩ := by
  rw [retryCall, retryInternal, if_pos rfl]

/-- Witness for C9 on the cache `[(1, 10)]` and the missing key 5. -/
theorem lru_get_missing_unchanged_witness :
    lookupKey 5 (⟨2, [(1, 10)]⟩ : LRUDict Nat Nat).entries = none ∧
    ((⟨2, [(1, 10)]⟩ : LRUDict Nat Nat).getItem 5 = none
    ∧ applyOp (⟨2, [(1, 10)]⟩ : LRUDict Nat Nat) (CacheOp.get 5) = ⟨2, [(1, 10)]⟩) :=
  ⟨by decide, lru_get_missing_unchanged (⟨2, [(1, 10)]⟩ : LRUDict Nat Nat) 5 (by decide)⟩

end SkaHelpers
